import Mathlib

/-
  Verification of the caption-to-transcript parsing pipeline and the positional
  document-assembly algorithm of the council-meeting-analyzer repository.

  The Python sources are shallowly embedded:
    * src/api/index.py      : get_transcript (SRT parsing, caption-track selection,
                              transcript formatting), parse_srt_timestamp, parse_time,
                              format_time
    * src/api/google_docs.py: create_doc_with_transcript (batch-update request
                              assembly), format_duration, update_doc_with_analysis
                              (analysis insertion-point location)

  Python string primitives (strip, isdigit, split, join, replace, lower, the
  `in` operator, int(), float()) are modelled by executable functions on
  `List Char` / `String` below, restricted to the ASCII inputs this program
  manipulates.  Python floats are modelled by exact rationals (ℚ): every
  numeric literal appearing in the claims under verification is exactly
  representable, so binary rounding plays no role in any settled statement.
-/

-- The Batteries rational operations are @[irreducible]; make them reducible so
-- that concrete evaluations can be discharged by kernel reduction (decide/rfl).
unseal Rat.mul Rat.inv Rat.add Rat.sub Rat.ofScientific

deriving instance DecidableEq for Except

namespace CouncilMeeting

/-- Python whitespace characters stripped by str.strip() (ASCII range). -/
def wsChar (c : Char) : Bool :=
  c = ' ' || c = '\t' || c = '\n' || c = '\r' || c = '\x0b' || c = '\x0c'

/-- Drop trailing characters satisfying p. -/
def dropTrailing (p : Char → Bool) (l : List Char) : List Char :=
  (l.reverse.dropWhile p).reverse

/-- Characters of a Python-stripped string: leading and trailing whitespace removed. -/
def stripChars (l : List Char) : List Char :=
  dropTrailing wsChar (l.dropWhile wsChar)

/-- Models Python str.strip() with no argument. -/
def pyStrip (s : String) : String := ⟨stripChars s.data⟩

/-- Models Python str.isdigit() restricted to ASCII digits (all inputs in this
program are ASCII): true iff the string is non-empty and all characters are digits. -/
def pyIsdigit (s : String) : Bool :=
  !s.data.isEmpty && s.data.all Char.isDigit

/-- Substring occurrence test on character lists (Python `sub in s`). -/
def listContainsSub (sub : List Char) : List Char → Bool
  | [] => sub.isEmpty
  | c :: rest => sub.isPrefixOf (c :: rest) || listContainsSub sub rest

/-- Models the Python `in` operator on strings: pyContains sub s ⟺ sub occurs in s. -/
def pyContains (sub s : String) : Bool := listContainsSub sub.data s.data

/-- Fuel-driven worker for splitting on a separator (structural recursion on the
fuel, so that concrete instances reduce inside the kernel).  When the fuel
exceeds the length of the list the result is independent of it. -/
def listSplitOnF (sep : List Char) : Nat → List Char → List (List Char)
  | _, [] => [[]]
  | 0, l => [l]
  | fuel + 1, c :: rest =>
    if sep.isPrefixOf (c :: rest) then
      [] :: listSplitOnF sep fuel (List.drop (sep.length - 1) rest)
    else
      match listSplitOnF sep fuel rest with
      | [] => [[c]]
      | x :: xs => (c :: x) :: xs

/-- Splitting a character list on a non-empty separator, Python str.split(sep)
semantics (leftmost non-overlapping occurrences; n+1 pieces for n occurrences).
The sep = [] case never arises in this program (Python raises ValueError there). -/
def listSplitOn (sep : List Char) (l : List Char) : List (List Char) :=
  if sep.isEmpty then [l] else listSplitOnF sep (l.length + 1) l

/-- Models Python s.split(sep) for a non-empty separator string. -/
def pySplitStr (sep s : String) : List String :=
  (listSplitOn sep.data s.data).map fun l => ⟨l⟩

/-- Join character pieces with a separator. -/
def charJoin (sep : List Char) : List (List Char) → List Char
  | [] => []
  | [x] => x
  | x :: xs => x ++ sep ++ charJoin sep xs

/-- Models Python s.replace(old, new) for a non-empty old. -/
def pyReplace (s old new : String) : String :=
  ⟨charJoin new.data (listSplitOn old.data s.data)⟩

/-- Models Python sep.join(list). -/
def pyJoin (sep : String) : List String → String
  | [] => ""
  | [x] => x
  | x :: xs => x ++ sep ++ pyJoin sep xs

/-- Models Python str.lower() (ASCII). -/
def pyLower (s : String) : String := ⟨s.data.map Char.toLower⟩

/-- Numeric value of a list of ASCII digits. -/
def natOfDigits (l : List Char) : Nat :=
  l.foldl (fun a c => a * 10 + (c.toNat - '0'.toNat)) 0

/-- Models Python int(str) on ASCII decimal literals: optional sign and at least
one digit after stripping whitespace; none models the ValueError raised otherwise. -/
def pyIntOfString (s : String) : Option Int :=
  match stripChars s.data with
  | '-' :: ds => if !ds.isEmpty && ds.all Char.isDigit then some (-(natOfDigits ds : Int)) else none
  | '+' :: ds => if !ds.isEmpty && ds.all Char.isDigit then some (natOfDigits ds : Int) else none
  | ds => if !ds.isEmpty && ds.all Char.isDigit then some (natOfDigits ds : Int) else none

/-- Models Python float(str) on plain decimal literals (optional sign, digits,
at most one point, at least one digit), as the exact rational value of the
literal; none models ValueError. -/
def pyFloatOfString (s : String) : Option ℚ :=
  let t := stripChars s.data
  let signAndRest : ℚ × List Char :=
    match t with
    | '-' :: r => (-1, r)
    | '+' :: r => (1, r)
    | _ => (1, t)
  match listSplitOn ['.'] signAndRest.2 with
  | [a] =>
    if !a.isEmpty && a.all Char.isDigit then
      some (signAndRest.1 * (natOfDigits a : ℚ))
    else none
  | [a, b] =>
    if (!a.isEmpty || !b.isEmpty) && a.all Char.isDigit && b.all Char.isDigit then
      some (signAndRest.1 * ((natOfDigits a : ℚ) + (natOfDigits b : ℚ) / 10 ^ b.length))
    else none
  | _ => none

/-- Embeds parse_time, nested in parse_srt_timestamp (src/api/index.py 204-206):
split on a colon into exactly three fields (ValueError otherwise, modelled as
.error), and compute hours*3600 + minutes*60 + seconds. -/
def parse_time (time_str : String) : Except String ℚ :=
  match pySplitStr ":" time_str with
  | [h, m, s] =>
    match pyIntOfString h, pyIntOfString m, pyFloatOfString s with
    | some hv, some mv, some sv => .ok ((hv : ℚ) * 3600 + (mv : ℚ) * 60 + sv)
    | _, _, _ => .error "ValueError: invalid numeric literal"
  | _ => .error "ValueError: cannot unpack time fields"

/-- Embeds parse_srt_timestamp (src/api/index.py 198-208): split the line on
" --> ", convert the decimal comma of each side, and parse both sides with
parse_time.  A missing second part models the Python IndexError. -/
def parse_srt_timestamp (timestamp_line : String) : Except String (ℚ × ℚ) :=
  match pySplitStr " --> " timestamp_line with
  | p0 :: p1 :: _ => do
    let s ← parse_time (pyReplace p0 "," ".")
    let e ← parse_time (pyReplace p1 "," ".")
    .ok (s, e)
  | _ => .error "IndexError: list index out of range"

/-- Python float floor division a // b (a float, result the floored quotient). -/
def pyFloorDiv (a b : ℚ) : ℚ := (⌊a / b⌋ : ℚ)

/-- Python float modulo a % b = a - b * (a // b) (sign of the divisor). -/
def pyModQ (a b : ℚ) : ℚ := a - b * (⌊a / b⌋ : ℚ)

/-- Python int() on a float value: truncation toward zero. -/
def pyIntTrunc (q : ℚ) : ℤ := if 0 ≤ q then ⌊q⌋ else ⌈q⌉

/-- Python format spec {:02d}: decimal rendering left-padded with zeros to width 2. -/
def pad2 (n : ℤ) : String :=
  let s := toString n
  if s.length < 2 then "0" ++ s else s

/-- Embeds format_time (src/api/index.py 210-215). -/
def format_time (seconds : ℚ) : String :=
  let hrs := pyIntTrunc (pyFloorDiv seconds 3600)
  let mins := pyIntTrunc (pyFloorDiv (pyModQ seconds 3600) 60)
  let secs := pyIntTrunc (pyModQ seconds 60)
  pad2 hrs ++ ":" ++ pad2 mins ++ ":" ++ pad2 secs

/-- One parsed SRT segment; source dict keys 'start', 'end', 'text'
(endTime stands for the source key 'end', a Lean keyword). -/
structure Segment where
  start : ℚ
  endTime : ℚ
  text : String
deriving DecidableEq, Repr

/-- Loop state of the basic SRT parser in get_transcript (src/api/index.py 119-152):
current_timestamp, current_text, segments, full_text. -/
structure SRTState where
  currentTimestamp : String
  currentText : List String
  segments : List Segment
  fullText : String
deriving DecidableEq, Repr

/-- Embeds one iteration of the SRT parsing loop of get_transcript
(src/api/index.py 126-152).  Errors model exceptions escaping the loop. -/
def srtStep (st : SRTState) (rawLine : String) : Except String SRTState :=
  let line := pyStrip rawLine
  if line.data.isEmpty || pyIsdigit line then .ok st
  else if pyContains "-->" line then
    if !st.currentText.isEmpty && !st.currentTimestamp.data.isEmpty then
      match parse_srt_timestamp st.currentTimestamp with
      | .error err => .error err
      | .ok (s, e) =>
        let text := pyJoin " " st.currentText
        .ok { currentTimestamp := line
              currentText := []
              segments := st.segments ++ [⟨s, e, text⟩]
              fullText := st.fullText ++ text ++ " " }
    else .ok { st with currentTimestamp := line }
  else .ok { st with currentText := st.currentText ++ [line] }

/-- Embeds the trailing flush after the loop (src/api/index.py 154-165): the last
segment is appended when both a pending timestamp and pending text remain;
note that it appends the text to full_text without a trailing space and does
not clear current_text. -/
def srtFinish (st : SRTState) : Except String SRTState :=
  if !st.currentText.isEmpty && !st.currentTimestamp.data.isEmpty then
    match parse_srt_timestamp st.currentTimestamp with
    | .error err => .error err
    | .ok (s, e) =>
      let text := pyJoin " " st.currentText
      .ok { st with segments := st.segments ++ [⟨s, e, text⟩]
                    fullText := st.fullText ++ text }
  else .ok st

/-- Initial parser state (src/api/index.py 119-124). -/
def srtInit : SRTState := ⟨"", [], [], ""⟩

/-- The SRT parsing loop over a list of raw lines followed by the trailing flush. -/
def parseLinesSRT (lines : List String) : Except String SRTState :=
  (List.foldlM srtStep srtInit lines).bind srtFinish

/-- Embeds the per-segment rendering of get_transcript (src/api/index.py 168-172). -/
def formatSegment (seg : Segment) : String :=
  "[" ++ format_time seg.start ++ " - " ++ format_time seg.endTime ++ "] " ++ seg.text

/-- The transcript dictionary assembled by get_transcript (src/api/index.py 186-192):
keys 'full', 'formatted', 'segments'. -/
structure Transcript where
  full : String
  formatted : String
  segments : List Segment
deriving DecidableEq, Repr

/-- Embeds the SRT-processing portion of get_transcript (src/api/index.py 116-192):
split the payload into lines, run the parsing loop, and assemble full
(stripped), formatted ('\n\n'-joined rendered segments) and segments. -/
def get_transcript_srt (transcript_text : String) : Except String Transcript :=
  (parseLinesSRT (pySplitStr "\n" transcript_text)).map fun st =>
    ⟨pyStrip st.fullText, pyJoin "\n\n" (st.segments.map formatSegment), st.segments⟩

/-- A caption track as read from the listing response in get_transcript
(src/api/index.py 83-86): item id, snippet.language, snippet.get('name',''),
snippet.get('trackKind') (a missing name or trackKind is modelled as ""). -/
structure CaptionTrack where
  id : String
  language : String
  name : String
  trackKind : String
deriving DecidableEq, Repr

/-- Embeds the is_auto test of get_transcript (src/api/index.py 86):
'auto-generated' occurs in the lowercased name, or trackKind == 'ASR'. -/
def isAutoTrack (item : CaptionTrack) : Bool :=
  pyContains "auto-generated" (pyLower item.name) || item.trackKind == "ASR"

/-- Python truthiness of the caption_id variable: caption_id and caption_track
are always assigned together in the source, so the selection state is modelled
by the optional track alone; `not caption_id` holds when no track was assigned
or the assigned track's id is the empty string. -/
def selTruthy (sel : Option CaptionTrack) : Bool :=
  match sel with
  | some t => !t.id.data.isEmpty
  | none => false

/-- Embeds the caption-track selection of get_transcript (src/api/index.py 75-107):
empty listing errors; then three phases guarded by `if not caption_id` pick the
first manual English track, the first English track, and the first track;
finally `if not caption_id` errors.  Errors carry the source's message strings. -/
def get_transcript_select (items : List CaptionTrack) : Except String CaptionTrack :=
  match items with
  | [] => .error "No captions found for this video"
  | t0 :: _ =>
    let sel1 : Option CaptionTrack :=
      items.find? fun item => item.language == "en" && !isAutoTrack item
    let sel2 : Option CaptionTrack :=
      if !selTruthy sel1 then
        match items.find? fun item => item.language == "en" with
        | some t => some t
        | none => sel1
      else sel1
    let sel3 : Option CaptionTrack :=
      if !selTruthy sel2 then some t0 else sel2
    if !selTruthy sel3 then .error "No suitable captions found"
    else
      match sel3 with
      | some t => .ok t
      | none => .error "No suitable captions found"

/-- Embeds format_duration (src/api/google_docs.py 193-203). -/
def format_duration (seconds : Nat) : String :=
  let hours := seconds / 3600
  let remainder := seconds % 3600
  let minutes := remainder / 60
  let secs := remainder % 60
  if hours > 0 then
    toString hours ++ "h " ++ toString minutes ++ "m " ++ toString secs ++ "s"
  else if minutes > 0 then
    toString minutes ++ "m " ++ toString secs ++ "s"
  else
    toString secs ++ "s"

/-- One Google Docs batch-update request as built by the source: an insertText
request {location: {index}, text} or an updateParagraphStyle request
{range: {startIndex, endIndex}, paragraphStyle: {namedStyleType}}. -/
inductive DocRequest where
  | insertText (index : Nat) (text : String)
  | updateParagraphStyle (startIndex endIndex : Nat) (namedStyleType : String)
deriving DecidableEq, Repr

/-- Embeds the request-assembly portion of create_doc_with_transcript
(src/api/google_docs.py 70-164): the header is inserted at index 1, then
current_index is set to len(header) (not 1 + len(header)) and advanced by each
inserted text's length, except that after the analysis body it advances by
len(analysis_text) + 6 although the appended separator "\n\n---\n\n" has 7
characters; finally the title style range [1, 1 + len(title line)) is emitted. -/
def create_doc_with_transcript_requests (title channel url : String) (duration : Nat)
    (analysis_text : Option String) (formatted : String) : List DocRequest :=
  let headerText := "# Meeting Transcript: " ++ title ++ "\n\n"
  let reqs1 := [DocRequest.insertText 1 headerText]
  let currentIndex1 := headerText.length
  let metadataText :=
    "Video URL: " ++ url ++ "\n" ++
    "Channel: " ++ channel ++ "\n" ++
    "Duration: " ++ format_duration duration ++ "\n\n" ++
    "---\n\n"
  let reqs2 := reqs1 ++ [DocRequest.insertText currentIndex1 metadataText]
  let currentIndex2 := currentIndex1 + metadataText.length
  let afterAnalysis : List DocRequest × Nat :=
    match analysis_text with
    | some a =>
      let analysisHeader := "## Analysis\n\n"
      let reqsA := reqs2 ++ [DocRequest.insertText currentIndex2 analysisHeader]
      let ciA := currentIndex2 + analysisHeader.length
      let reqsB := reqsA ++ [DocRequest.insertText ciA (a ++ "\n\n---\n\n")]
      (reqsB, ciA + a.length + 6)
    | none => (reqs2, currentIndex2)
  let transcriptHeader := "## Full Transcript\n\n"
  let reqs4 := afterAnalysis.1 ++ [DocRequest.insertText afterAnalysis.2 transcriptHeader]
  let currentIndex4 := afterAnalysis.2 + transcriptHeader.length
  let reqs5 := reqs4 ++ [DocRequest.insertText currentIndex4 formatted]
  reqs5 ++ [DocRequest.updateParagraphStyle 1
    (1 + ("# Meeting Transcript: " ++ title).length) "HEADING_1"]

/-- The insertText offsets of a request list, in order of emission. -/
def insertOffsets (reqs : List DocRequest) : List Nat :=
  reqs.filterMap fun r =>
    match r with
    | .insertText i _ => some i
    | .updateParagraphStyle _ _ _ => none

/-- The insertText payload texts of a request list, in order of emission. -/
def insertTexts (reqs : List DocRequest) : List String :=
  reqs.filterMap fun r =>
    match r with
    | .insertText _ t => some t
    | .updateParagraphStyle _ _ _ => none

/-- The offsets the specification prescribes for a sequence of inserted block
contents: each block's insertion offset is 1 plus the sum of the character
lengths of all previously emitted blocks' content. -/
def specOffsets (texts : List String) : List Nat :=
  (List.range texts.length).map fun i => 1 + ((texts.take i).map String.length).sum

/-- One structural element of an existing document body as inspected by
update_doc_with_analysis (src/api/google_docs.py 218-227): whether it is a
paragraph, its paragraphStyle.namedStyleType ("" when absent), its
concatenated textRun content, and its optional startIndex ('startIndex' can be
absent from the response dict, which .get models as none). -/
structure DocItem where
  isParagraph : Bool
  namedStyleType : String
  text : String
  startIndex : Option Nat
deriving DecidableEq, Repr

/-- The heading test of update_doc_with_analysis: a paragraph styled HEADING_2
whose text contains "Full Transcript". -/
def isTranscriptHeading (item : DocItem) : Bool :=
  item.isParagraph && item.namedStyleType == "HEADING_2" &&
    pyContains "Full Transcript" item.text

/-- Embeds the insertion-point location of update_doc_with_analysis
(src/api/google_docs.py 212-231): scan the content for the first HEADING_2
paragraph containing "Full Transcript" and take its startIndex; afterwards
`if not insert_index` replaces a missing OR zero index by 1. -/
def update_doc_insert_index (content : List DocItem) : Nat :=
  let found := content.find? isTranscriptHeading
  let insertIndex : Option Nat :=
    match found with
    | some item => item.startIndex
    | none => none
  match insertIndex with
  | some n => if n == 0 then 1 else n
  | none => 1

/-! ### Specification-side definitions

The following definitions are written from the specification's wording, to be
compared with the source embeddings above. -/

/-- A subtitle block in the shape the specification calls a valid payload:
an optional purely numeric index line, exactly one timestamp line, and one or
more text lines. -/
structure SRTBlock where
  indexLine : Option String
  tsLine : String
  textLines : List String

/-- The lines of one block, in source order. -/
def blockLines (b : SRTBlock) : List String :=
  b.indexLine.toList ++ [b.tsLine] ++ b.textLines

/-- Lines of the blocks after the first, each preceded by its separating blank line. -/
def tailLines : List SRTBlock → List String
  | [] => []
  | b :: bs => "" :: blockLines b ++ tailLines bs

/-- The lines of a blank-line-separated sequence of blocks. -/
def payloadLines : List SRTBlock → List String
  | [] => []
  | b :: bs => blockLines b ++ tailLines bs

/-- Boolean success test for Except results. -/
def exceptOk {ε α : Type} (x : Except ε α) : Bool :=
  match x with
  | .ok _ => true
  | .error _ => false

/-- A text line the parser keeps: non-blank, not purely numeric, and not a
timestamp line, after stripping. -/
def goodTextLine (l : String) : Bool :=
  !(pyStrip l).data.isEmpty && !pyIsdigit (pyStrip l) && !pyContains "-->" (pyStrip l)

/-- The validity conditions under which a block contributes exactly one segment:
its optional index line is purely numeric, its timestamp line is recognized and
parses, and it has at least one text line the parser keeps.  Lines contain no
newline character (they are lines). -/
def ValidBlock (b : SRTBlock) : Prop :=
  b.indexLine.all (fun i => pyIsdigit (pyStrip i)) = true ∧
  pyContains "-->" (pyStrip b.tsLine) = true ∧
  exceptOk (parse_srt_timestamp (pyStrip b.tsLine)) = true ∧
  b.textLines ≠ [] ∧
  (∀ t ∈ b.textLines, goodTextLine t = true) ∧
  (∀ l ∈ blockLines b, '\n' ∉ l.data)

instance (b : SRTBlock) : Decidable (ValidBlock b) := by
  unfold ValidBlock
  infer_instance

/-- The segment a valid block denotes: the parsed timestamp pair, and its
stripped text lines joined by single spaces. -/
def blockSeg (b : SRTBlock) : Segment :=
  match parse_srt_timestamp (pyStrip b.tsLine) with
  | .ok (s, e) => ⟨s, e, pyJoin " " (b.textLines.map pyStrip)⟩
  | .error _ => ⟨0, 0, ""⟩

/-- The rendering the specification prescribes for a non-negative number of
seconds: the whole number of elapsed seconds (integer truncation toward zero,
no rounding), decomposed into zero-padded HH:MM:SS fields. -/
def specHMS (q : ℚ) : String :=
  let n : ℕ := ⌊q⌋₊
  pad2 ((n / 3600 : ℕ) : ℤ) ++ ":" ++ pad2 ((n % 3600 / 60 : ℕ) : ℤ) ++ ":" ++
    pad2 ((n % 60 : ℕ) : ℤ)

/-- The formatted transcript the specification prescribes: each segment rendered
as [HH:MM:SS - HH:MM:SS] text, blocks joined with a blank line. -/
def specFormatted (segs : List Segment) : String :=
  pyJoin "\n\n" (segs.map fun seg =>
    "[" ++ specHMS seg.start ++ " - " ++ specHMS seg.endTime ++ "] " ++ seg.text)

/-! ### Helper lemmas -/

theorem string_eq_iff_data {s t : String} : s = t ↔ s.data = t.data := by
  constructor
  · intro h; rw [h]
  · intro h; cases s; cases t; exact congrArg String.mk h

theorem except_bind_ok {α β : Type} (a : α) (f : α → Except String β) :
    (Except.ok a >>= f : Except String β) = f a := rfl

theorem except_bind_error {α β : Type} (msg : String) (f : α → Except String β) :
    (Except.error msg >>= f : Except String β) = Except.error msg := rfl

theorem except_bind_fn_ok {α β : Type} (a : α) (f : α → Except String β) :
    (Except.ok a).bind f = f a := rfl

theorem except_bind_fn_error {α β : Type} (msg : String) (f : α → Except String β) :
    (Except.error msg : Except String α).bind f = Except.error msg := rfl

/-- A non-empty pattern occurring in a list forces the list non-empty. -/
theorem listContainsSub_ne_nil {c : Char} {s l : List Char}
    (h : listContainsSub (c :: s) l = true) : l ≠ [] := by
  intro hl
  subst hl
  simp [listContainsSub] at h

/-- The head of an occurring pattern is a member of the list. -/
theorem listContainsSub_head_mem {c : Char} {s : List Char} :
    ∀ {l : List Char}, listContainsSub (c :: s) l = true → c ∈ l := by
  intro l
  induction l with
  | nil => intro h; simp [listContainsSub] at h
  | cons x rest ih =>
    intro h
    simp only [listContainsSub, Bool.or_eq_true] at h
    rcases h with h | h
    · have hpre : (c :: s) <+: (x :: rest) := List.isPrefixOf_iff_prefix.mp h
      exact hpre.subset (List.mem_cons_self c s)
    · exact List.mem_cons_of_mem x (ih h)

/-- A line containing "-->" is not the empty string. -/
theorem arrow_ne_empty {line : String} (h : pyContains "-->" line = true) :
    line.data.isEmpty = false := by
  unfold pyContains at h
  have : line.data ≠ [] := listContainsSub_ne_nil h
  simpa [List.isEmpty_iff] using this

/-- A line containing "-->" is not purely numeric ('-' is not a digit). -/
theorem arrow_not_digit {line : String} (h : pyContains "-->" line = true) :
    pyIsdigit line = false := by
  unfold pyContains at h
  have hmem : '-' ∈ line.data := listContainsSub_head_mem h
  unfold pyIsdigit
  cases hall : line.data.all Char.isDigit with
  | false => simp
  | true =>
    have := List.all_eq_true.mp hall '-' hmem
    simp at this

/-- A purely numeric line does not contain "-->". -/
theorem digit_not_arrow {line : String} (h : pyIsdigit line = true) :
    pyContains "-->" line = false := by
  cases harr : pyContains "-->" line with
  | false => rfl
  | true => rw [arrow_not_digit harr] at h; cases h

/-- The parser skips a line that strips to a purely numeric or empty line. -/
theorem srtStep_skip (st : SRTState) (line : String)
    (h : (pyStrip line).data.isEmpty = true ∨ pyIsdigit (pyStrip line) = true) :
    srtStep st line = .ok st := by
  unfold srtStep
  rcases h with h | h <;> simp [h]

/-- The parser accumulates a kept text line, stripped, at the end of current_text. -/
theorem srtStep_text (st : SRTState) (line : String) (h : goodTextLine line = true) :
    srtStep st line = .ok { st with currentText := st.currentText ++ [pyStrip line] } := by
  unfold goodTextLine at h
  simp only [Bool.and_eq_true, Bool.not_eq_true'] at h
  obtain ⟨⟨h1, h2⟩, h3⟩ := h
  unfold srtStep
  simp [h1, h2, h3]

/-- A timestamp line reaching the parser with no pending text only records itself. -/
theorem srtStep_ts_fresh (st : SRTState) (line : String)
    (hct : st.currentText = []) (harrow : pyContains "-->" (pyStrip line) = true) :
    srtStep st line = .ok { st with currentTimestamp := pyStrip line } := by
  unfold srtStep
  simp [arrow_ne_empty harrow, arrow_not_digit harrow, harrow, hct]

/-- A timestamp line reaching the parser with pending text and a pending parseable
timestamp flushes the pending segment and records itself. -/
theorem srtStep_ts_flush (st : SRTState) (line : String) (s e : ℚ)
    (hct : st.currentText ≠ []) (hcts : st.currentTimestamp.data ≠ [])
    (hparse : parse_srt_timestamp st.currentTimestamp = .ok (s, e))
    (harrow : pyContains "-->" (pyStrip line) = true) :
    srtStep st line = .ok ⟨pyStrip line, [],
      st.segments ++ [⟨s, e, pyJoin " " st.currentText⟩],
      st.fullText ++ pyJoin " " st.currentText ++ " "⟩ := by
  unfold srtStep
  simp [arrow_ne_empty harrow, arrow_not_digit harrow, harrow, hct, hcts, hparse]

/-- The trailing flush fires when text and a parseable timestamp are pending. -/
theorem srtFinish_flush (st : SRTState) (s e : ℚ)
    (hct : st.currentText ≠ []) (hcts : st.currentTimestamp.data ≠ [])
    (hparse : parse_srt_timestamp st.currentTimestamp = .ok (s, e)) :
    srtFinish st = .ok { st with
      segments := st.segments ++ [⟨s, e, pyJoin " " st.currentText⟩]
      fullText := st.fullText ++ pyJoin " " st.currentText } := by
  unfold srtFinish
  simp [hct, hcts, hparse]

/-- The trailing flush does nothing without pending text or timestamp. -/
theorem srtFinish_skip (st : SRTState)
    (h : st.currentText = [] ∨ st.currentTimestamp.data = []) :
    srtFinish st = .ok st := by
  unfold srtFinish
  rcases h with h | h <;> simp [h]

/-- Stepping the parser preserves any property preserved by each srtStep. -/
theorem foldlM_srtStep_inv (P : SRTState → Prop)
    (hstep : ∀ st line st', srtStep st line = .ok st' → P st → P st') :
    ∀ (lines : List String) (st st' : SRTState),
      List.foldlM srtStep st lines = .ok st' → P st → P st' := by
  intro lines
  induction lines with
  | nil =>
    intro st st' h hP
    simp only [List.foldlM_nil] at h
    cases h
    exact hP
  | cons l ls ih =>
    intro st st' h hP
    rw [List.foldlM_cons] at h
    cases hs : srtStep st l with
    | error msg => rw [hs] at h; simp [except_bind_error] at h
    | ok st1 =>
      rw [hs, except_bind_ok] at h
      exact ih st1 st' h (hstep st l st1 hs hP)

/-- The parser state pending after a block has been read but not yet flushed:
the stripped timestamp line is recorded and the stripped text lines accumulated. -/
def pendState (b : SRTBlock) (segs : List Segment) (full : String) : SRTState :=
  ⟨pyStrip b.tsLine, b.textLines.map pyStrip, segs, full⟩

/-- Feeding a run of kept text lines accumulates their stripped forms in order. -/
theorem foldlM_textLines (ts : List String) :
    ∀ st : SRTState, (∀ t ∈ ts, goodTextLine t = true) →
      List.foldlM srtStep st ts =
        .ok { st with currentText := st.currentText ++ ts.map pyStrip } := by
  induction ts with
  | nil =>
    intro st _
    rw [List.foldlM_nil]
    simp only [List.map_nil, List.append_nil]
    rfl
  | cons t ts' ih =>
    intro st h
    rw [List.foldlM_cons, srtStep_text st t (h t (List.mem_cons_self t ts')), except_bind_ok,
      ih _ (fun x hx => h x (List.mem_cons_of_mem t hx))]
    simp

/-- Unpacking the parse success recorded in a valid block. -/
theorem validBlock_parse (b : SRTBlock) (hb : ValidBlock b) :
    parse_srt_timestamp (pyStrip b.tsLine) = .ok ((blockSeg b).start, (blockSeg b).endTime) ∧
      (blockSeg b).text = pyJoin " " (b.textLines.map pyStrip) := by
  obtain ⟨-, -, hok, -, -, -⟩ := hb
  unfold blockSeg
  cases hp : parse_srt_timestamp (pyStrip b.tsLine) with
  | error msg => rw [hp] at hok; simp [exceptOk] at hok
  | ok v => cases v; simp

/-- Processing the lines of a valid first block from the initial state reaches
its pending state with no segments emitted. -/
theorem foldlM_firstBlock (b : SRTBlock) (hb : ValidBlock b) :
    List.foldlM srtStep srtInit (blockLines b) = .ok (pendState b [] "") := by
  obtain ⟨hidx, harrow, hok, hne, htexts, hnl⟩ := hb
  unfold blockLines
  rw [List.foldlM_append, List.foldlM_append]
  have hIdx : List.foldlM srtStep srtInit b.indexLine.toList = .ok srtInit := by
    cases hi : b.indexLine with
    | none => rfl
    | some i =>
      have : pyIsdigit (pyStrip i) = true := by
        rw [hi] at hidx; simpa [Option.all] using hidx
      simp only [Option.toList, List.foldlM_cons, List.foldlM_nil]
      rw [srtStep_skip srtInit i (Or.inr this), except_bind_ok]
      rfl
  rw [hIdx, except_bind_ok]
  have hTs : List.foldlM srtStep srtInit [b.tsLine] = .ok { srtInit with currentTimestamp := pyStrip b.tsLine } := by
    rw [List.foldlM_cons, srtStep_ts_fresh srtInit b.tsLine rfl harrow, except_bind_ok,
      List.foldlM_nil]
    rfl
  rw [hTs, except_bind_ok, foldlM_textLines b.textLines _ htexts]
  rfl

/-- Processing a separating blank line and then the lines of the next valid block
from a valid pending state flushes the pending block's segment and reaches the
next pending state. -/
theorem foldlM_nextBlock (a b : SRTBlock) (segs : List Segment) (full : String)
    (ha : ValidBlock a) (hb : ValidBlock b) :
    List.foldlM srtStep (pendState a segs full) ("" :: blockLines b) =
      .ok (pendState b (segs ++ [blockSeg a]) (full ++ (blockSeg a).text ++ " ")) := by
  obtain ⟨hidxb, harrowb, hokb, hneb, htextsb, hnlb⟩ := hb
  obtain ⟨hparse, htext⟩ := validBlock_parse a ha
  obtain ⟨-, harrowa, -, hnea, -, -⟩ := ha
  rw [List.foldlM_cons, srtStep_skip _ "" (Or.inl rfl), except_bind_ok]
  unfold blockLines
  rw [List.foldlM_append, List.foldlM_append]
  have hIdx : List.foldlM srtStep (pendState a segs full) b.indexLine.toList =
      .ok (pendState a segs full) := by
    cases hi : b.indexLine with
    | none => rfl
    | some i =>
      have : pyIsdigit (pyStrip i) = true := by
        rw [hi] at hidxb; simpa [Option.all] using hidxb
      simp only [Option.toList, List.foldlM_cons, List.foldlM_nil]
      rw [srtStep_skip _ i (Or.inr this), except_bind_ok]
      rfl
  rw [hIdx, except_bind_ok]
  have hctne : (pendState a segs full).currentText ≠ [] := by
    simp only [pendState]
    simpa [List.map_eq_nil_iff] using hnea
  have hctsne : (pendState a segs full).currentTimestamp.data ≠ [] := by
    simp only [pendState]
    have := arrow_ne_empty harrowa
    simpa [List.isEmpty_iff] using this
  have hparse' : parse_srt_timestamp (pendState a segs full).currentTimestamp =
      .ok ((blockSeg a).start, (blockSeg a).endTime) := hparse
  have hTs : List.foldlM srtStep (pendState a segs full) [b.tsLine] =
      .ok ⟨pyStrip b.tsLine, [],
        segs ++ [⟨(blockSeg a).start, (blockSeg a).endTime, pyJoin " " (a.textLines.map pyStrip)⟩],
        full ++ pyJoin " " (a.textLines.map pyStrip) ++ " "⟩ := by
    rw [List.foldlM_cons,
      srtStep_ts_flush (pendState a segs full) b.tsLine _ _ hctne hctsne hparse' harrowb,
      except_bind_ok, List.foldlM_nil]
    rfl
  rw [hTs, except_bind_ok, foldlM_textLines b.textLines _ htextsb]
  have hseg : (⟨(blockSeg a).start, (blockSeg a).endTime, pyJoin " " (a.textLines.map pyStrip)⟩ : Segment) = blockSeg a := by
    rw [← htext]
  simp [pendState, hseg, htext]

/-- Processing the rest of the payload from a valid pending state, followed by
the trailing flush, emits exactly the pending block's segment and then one
segment per remaining block, in order. -/
theorem runBlocks_tail (bs : List SRTBlock) :
    ∀ (a : SRTBlock) (segs : List Segment) (full : String),
      ValidBlock a → (∀ b ∈ bs, ValidBlock b) →
      ∃ st', (List.foldlM srtStep (pendState a segs full) (tailLines bs)).bind srtFinish =
          .ok st' ∧ st'.segments = segs ++ (a :: bs).map blockSeg := by
  induction bs with
  | nil =>
    intro a segs full ha _
    obtain ⟨hparse, htext⟩ := validBlock_parse a ha
    obtain ⟨-, harrowa, -, hnea, -, -⟩ := ha
    have hctne : (pendState a segs full).currentText ≠ [] := by
      simp only [pendState]
      simpa [List.map_eq_nil_iff] using hnea
    have hctsne : (pendState a segs full).currentTimestamp.data ≠ [] := by
      simp only [pendState]
      have := arrow_ne_empty harrowa
      simpa [List.isEmpty_iff] using this
    rw [show tailLines [] = [] from rfl, List.foldlM_nil]
    rw [show (pure (pendState a segs full) : Except String SRTState) = .ok (pendState a segs full) from rfl]
    rw [except_bind_fn_ok, srtFinish_flush (pendState a segs full) _ _ hctne hctsne hparse]
    refine ⟨_, rfl, ?_⟩
    simp only [pendState, List.map_cons, List.map_nil]
    have hseg : (⟨(blockSeg a).start, (blockSeg a).endTime, pyJoin " " (a.textLines.map pyStrip)⟩ : Segment) = blockSeg a := by
      rw [← htext]
    simp [hseg]
  | cons b rest ih =>
    intro a segs full ha hall
    have hb : ValidBlock b := hall b (List.mem_cons_self b rest)
    have hrest : ∀ x ∈ rest, ValidBlock x := fun x hx => hall x (List.mem_cons_of_mem b hx)
    have hshape : tailLines (b :: rest) = ("" :: blockLines b) ++ tailLines rest := by
      simp [tailLines]
    rw [hshape, List.foldlM_append, foldlM_nextBlock a b segs full ha hb, except_bind_ok]
    obtain ⟨st', hst', hsegs⟩ :=
      ih b (segs ++ [blockSeg a]) (full ++ (blockSeg a).text ++ " ") hb hrest
    refine ⟨st', hst', ?_⟩
    rw [hsegs]
    simp

/-- Parsing the lines of a valid blank-line-separated payload succeeds and yields
exactly one segment per block, in source order. -/
theorem parse_payloadLines (bs : List SRTBlock) (h : ∀ b ∈ bs, ValidBlock b) :
    ∃ st', parseLinesSRT (payloadLines bs) = .ok st' ∧ st'.segments = bs.map blockSeg := by
  cases bs with
  | nil =>
    refine ⟨srtInit, ?_, rfl⟩
    unfold parseLinesSRT payloadLines
    rw [List.foldlM_nil]
    rw [show (pure srtInit : Except String SRTState) = .ok srtInit from rfl, except_bind_fn_ok]
    exact srtFinish_skip srtInit (Or.inl rfl)
  | cons a rest =>
    have ha : ValidBlock a := h a (List.mem_cons_self a rest)
    have hrest : ∀ x ∈ rest, ValidBlock x := fun x hx => h x (List.mem_cons_of_mem a hx)
    unfold parseLinesSRT payloadLines
    rw [List.foldlM_append, foldlM_firstBlock a ha, except_bind_ok]
    exact runBlocks_tail rest a [] "" ha hrest

/-! ### Splitting on a single character and joining are inverse on newline-free lines -/

/-- For a single-character separator the split result does not depend on the fuel,
as long as the fuel exceeds the length. -/
theorem listSplitOnF_single_fuel (c : Char) :
    ∀ (l : List Char) (fuel fuel' : Nat), l.length < fuel → l.length < fuel' →
      listSplitOnF [c] fuel l = listSplitOnF [c] fuel' l := by
  intro l
  induction l with
  | nil => intro fuel fuel' _ _; cases fuel <;> cases fuel' <;> rfl
  | cons x rest ih =>
    intro fuel fuel' hf hf'
    cases fuel with
    | zero => simp at hf
    | succ f =>
      cases fuel' with
      | zero => simp at hf'
      | succ f' =>
        simp only [List.length_cons] at hf hf'
        have hrest : rest.length < f := by omega
        have hrest' : rest.length < f' := by omega
        simp only [listSplitOnF]
        by_cases hp : [c].isPrefixOf (x :: rest) = true
        · simp only [hp, if_true, List.length_cons, List.length_nil, Nat.add_sub_cancel,
            List.drop_zero]
          rw [ih f f' hrest hrest']
        · rw [Bool.not_eq_true] at hp
          simp only [hp, Bool.false_eq_true, if_false]
          rw [ih f f' hrest hrest']

/-- Splitting a list beginning with the separator character emits an empty piece. -/
theorem listSplitOn_single_cons_self (c : Char) (l2 : List Char) :
    listSplitOn [c] (c :: l2) = [] :: listSplitOn [c] l2 := by
  unfold listSplitOn
  simp only [List.isEmpty_cons, if_false, Bool.false_eq_true]
  simp only [List.length_cons, listSplitOnF]
  have hp : [c].isPrefixOf (c :: l2) = true := by
    simp [List.isPrefixOf_cons₂]
  simp only [hp, if_true, List.length_cons, List.length_nil, Nat.add_sub_cancel,
    List.drop_zero]

/-- Splitting a list beginning with a non-separator character prepends it to the
first piece of the tail's split. -/
theorem listSplitOn_single_cons_ne (c x : Char) (rest : List Char) (hne : c ≠ x) :
    listSplitOn [c] (x :: rest) =
      match listSplitOn [c] rest with
      | [] => [[x]]
      | y :: ys => (x :: y) :: ys := by
  unfold listSplitOn
  simp only [List.isEmpty_cons, if_false, Bool.false_eq_true]
  simp only [List.length_cons, listSplitOnF]
  have hp : [c].isPrefixOf (x :: rest) = false := by
    simp [List.isPrefixOf_cons₂, List.isPrefixOf]
    intro h
    exact absurd h hne
  simp only [hp, if_false, Bool.false_eq_true]

/-- Splitting on a character absent from the list yields the whole list. -/
theorem listSplitOn_single_not_mem (c : Char) :
    ∀ (l : List Char), c ∉ l → listSplitOn [c] l = [l] := by
  intro l
  induction l with
  | nil => intro _; rfl
  | cons x rest ih =>
    intro h
    have hne : c ≠ x := fun hcx => h (hcx ▸ List.mem_cons_self x rest)
    have hrest : c ∉ rest := fun hm => h (List.mem_cons_of_mem x hm)
    rw [listSplitOn_single_cons_ne c x rest hne, ih hrest]

/-- Splitting at the first separator occurrence detaches the prefix before it. -/
theorem listSplitOn_single_append (c : Char) :
    ∀ (l1 l2 : List Char), c ∉ l1 →
      listSplitOn [c] (l1 ++ c :: l2) = l1 :: listSplitOn [c] l2 := by
  intro l1
  induction l1 with
  | nil => intro l2 _; simpa using listSplitOn_single_cons_self c l2
  | cons x r ih =>
    intro l2 h
    have hne : c ≠ x := fun hcx => h (hcx ▸ List.mem_cons_self x r)
    have hr : c ∉ r := fun hm => h (List.mem_cons_of_mem x hm)
    rw [List.cons_append, listSplitOn_single_cons_ne c x (r ++ c :: l2) hne, ih l2 hr]

/-- Splitting the separator-joined concatenation of separator-free pieces
recovers the pieces. -/
theorem listSplitOn_charJoin (c : Char) :
    ∀ (ls : List (List Char)), ls ≠ [] → (∀ p ∈ ls, c ∉ p) →
      listSplitOn [c] (charJoin [c] ls) = ls := by
  intro ls
  induction ls with
  | nil => intro h _; exact absurd rfl h
  | cons x rest ih =>
    intro _ hall
    cases rest with
    | nil => exact listSplitOn_single_not_mem c x (hall x (List.mem_cons_self x []))
    | cons y ys =>
      have hx : c ∉ x := hall x (List.mem_cons_self x (y :: ys))
      have hrest : ∀ p ∈ y :: ys, c ∉ p := fun p hp => hall p (List.mem_cons_of_mem x hp)
      have hjoin : charJoin [c] (x :: y :: ys) = x ++ c :: charJoin [c] (y :: ys) := by
        simp [charJoin]
      rw [hjoin, listSplitOn_single_append c x _ hx, ih (by simp) hrest]

/-- The characters of a joined string are the join of the characters. -/
theorem data_pyJoin (sep : String) :
    ∀ (xs : List String), (pyJoin sep xs).data = charJoin sep.data (xs.map String.data) := by
  intro xs
  induction xs with
  | nil => rfl
  | cons x rest ih =>
    cases rest with
    | nil => rfl
    | cons y ys =>
      show (x ++ sep ++ pyJoin sep (y :: ys)).data = x.data ++ sep.data ++ charJoin sep.data ((y :: ys).map String.data)
      rw [String.data_append, String.data_append, ih]

/-- Splitting the newline-joined concatenation of newline-free lines recovers
the lines (the inverse direction used to reason about whole payload strings). -/
theorem pySplitStr_pyJoin_newline (lines : List String) (hne : lines ≠ [])
    (hnl : ∀ l ∈ lines, '\n' ∉ l.data) :
    pySplitStr "\n" (pyJoin "\n" lines) = lines := by
  unfold pySplitStr
  rw [data_pyJoin]
  rw [show ("\n" : String).data = ['\n'] from rfl]
  rw [listSplitOn_charJoin '\n' (lines.map String.data) (by simpa using hne)
    (by intro p hp
        obtain ⟨l, hl, rfl⟩ := List.mem_map.mp hp
        exact hnl l hl)]
  rw [List.map_map]
  apply List.map_id''
  intro s
  rfl

/-! ### Counting timestamp lines in a valid payload -/

/-- The timestamp-line test the parser applies to a raw line. -/
def isTsLine (l : String) : Bool := pyContains "-->" (pyStrip l)

/-- A valid block contributes exactly one timestamp line. -/
theorem countP_blockLines (b : SRTBlock) (hb : ValidBlock b) :
    (blockLines b).countP isTsLine = 1 := by
  obtain ⟨hidx, harrow, -, -, htexts, -⟩ := hb
  unfold blockLines
  rw [List.countP_append, List.countP_append]
  have hidxCount : (b.indexLine.toList).countP isTsLine = 0 := by
    cases hi : b.indexLine with
    | none => rfl
    | some i =>
      have hdig : pyIsdigit (pyStrip i) = true := by
        rw [hi] at hidx; simpa [Option.all] using hidx
      have : isTsLine i = false := by
        unfold isTsLine
        exact digit_not_arrow hdig
      simp [Option.toList, List.countP_cons, this]
  have htsCount : ([b.tsLine] : List String).countP isTsLine = 1 := by
    have : isTsLine b.tsLine = true := harrow
    simp [List.countP_cons, this]
  have htextCount : (b.textLines).countP isTsLine = 0 := by
    rw [List.countP_eq_zero]
    intro t ht
    have hg := htexts t ht
    unfold goodTextLine at hg
    simp only [Bool.and_eq_true, Bool.not_eq_true'] at hg
    simp [isTsLine, hg.2]
  omega

/-- A blank separator line is not a timestamp line. -/
theorem isTsLine_blank : isTsLine "" = false := by decide

/-- Each block of a valid payload contributes exactly one timestamp line. -/
theorem countP_payloadLines (bs : List SRTBlock) (h : ∀ b ∈ bs, ValidBlock b) :
    (payloadLines bs).countP isTsLine = bs.length := by
  have htail : ∀ (cs : List SRTBlock), (∀ b ∈ cs, ValidBlock b) →
      (tailLines cs).countP isTsLine = cs.length := by
    intro cs
    induction cs with
    | nil => intro _; rfl
    | cons b rest ih =>
      intro hall
      have hb : ValidBlock b := hall b (List.mem_cons_self b rest)
      have hrest : ∀ x ∈ rest, ValidBlock x := fun x hx => hall x (List.mem_cons_of_mem b hx)
      have : tailLines (b :: rest) = ("" :: blockLines b) ++ tailLines rest := by
        simp [tailLines]
      rw [this, List.countP_append, List.countP_cons, countP_blockLines b hb, ih hrest]
      simp only [isTsLine_blank, Bool.false_eq_true, if_false, List.length_cons]
      omega
  cases bs with
  | nil => rfl
  | cons a rest =>
    have ha : ValidBlock a := h a (List.mem_cons_self a rest)
    have hrest : ∀ x ∈ rest, ValidBlock x := fun x hx => h x (List.mem_cons_of_mem a hx)
    unfold payloadLines
    rw [List.countP_append, countP_blockLines a ha, htail rest hrest]
    simp only [List.length_cons]
    omega

/-! ### The accumulated full text equals the joined segment texts -/

/-- The full_text accumulator value determined by a list of flushed segments:
each flushed segment appended its text and a following space. -/
def accText (segs : List Segment) : String :=
  segs.foldl (fun acc seg => acc ++ seg.text ++ " ") ""

theorem accText_append (segs : List Segment) (s : Segment) :
    accText (segs ++ [s]) = accText segs ++ s.text ++ " " := by
  simp [accText, List.foldl_append]

/-- Each parser step keeps full_text in lockstep with the flushed segments. -/
theorem srtStep_preserves_acc :
    ∀ (st : SRTState) (line : String) (st' : SRTState), srtStep st line = .ok st' →
      st.fullText = accText st.segments → st'.fullText = accText st'.segments := by
  intro st line st' h hP
  simp only [srtStep] at h
  split at h
  · cases h; exact hP
  · split at h
    · split at h
      · split at h
        · cases h
        · cases h
          simp only [accText_append, hP]
      · cases h; exact hP
    · cases h; exact hP

/-- Appending texts one at a time agrees with joining by single spaces. -/
theorem foldl_texts_append (texts : List String) :
    ∀ (acc t : String),
      (texts.foldl (fun a x => a ++ x ++ " ") acc) ++ t = acc ++ pyJoin " " (texts ++ [t]) := by
  induction texts with
  | nil => intro acc t; rfl
  | cons x xs ih =>
    intro acc t
    rw [List.foldl_cons, ih (acc ++ x ++ " ") t]
    have : pyJoin " " (x :: (xs ++ [t])) = x ++ " " ++ pyJoin " " (xs ++ [t]) := by
      cases xs <;> rfl
    rw [List.cons_append, this]
    simp [String.append_assoc]

/-- For a non-empty text list the accumulator is the join plus a trailing space. -/
theorem foldl_texts_trailing (texts : List String) (hne : texts ≠ []) :
    ∀ acc : String,
      texts.foldl (fun a x => a ++ x ++ " ") acc = acc ++ pyJoin " " texts ++ " " := by
  induction texts with
  | nil => exact absurd rfl hne
  | cons x xs ih =>
    intro acc
    cases hxs : xs with
    | nil => rfl
    | cons y ys =>
      rw [List.foldl_cons, ← hxs, ih (by simp [hxs]) (acc ++ x ++ " ")]
      have : pyJoin " " (x :: xs) = x ++ " " ++ pyJoin " " xs := by
        rw [hxs]; rfl
      rw [this]
      simp [String.append_assoc]

/-- Stripping ignores one trailing whitespace character. -/
theorem stripChars_append_ws (l : List Char) (c : Char) (hc : wsChar c = true) :
    stripChars (l ++ [c]) = stripChars l := by
  unfold stripChars
  rw [List.dropWhile_append]
  split
  · rename_i hEmpty
    simp only [List.dropWhile_cons, hc, if_true, List.dropWhile_nil]
    rw [List.isEmpty_iff] at hEmpty
    rw [hEmpty]
  · unfold dropTrailing
    rw [List.reverse_append]
    simp [List.dropWhile_cons, hc]

/-- Python strip absorbs a trailing space. -/
theorem pyStrip_append_space (s : String) : pyStrip (s ++ " ") = pyStrip s := by
  unfold pyStrip
  rw [string_eq_iff_data]
  show stripChars (s ++ " ").data = stripChars s.data
  rw [String.data_append]
  exact stripChars_append_ws s.data ' ' (by decide)

/-- The accumulator followed by one more text equals the space-join of all texts. -/
theorem accText_concat (segs : List Segment) (t : String) :
    accText segs ++ t = pyJoin " " (segs.map Segment.text ++ [t]) := by
  have h := foldl_texts_append (segs.map Segment.text) "" t
  rw [List.foldl_map] at h
  exact h

/-- The stripped accumulator equals the stripped space-join of the texts. -/
theorem accText_strip (segs : List Segment) :
    pyStrip (accText segs) = pyStrip (pyJoin " " (segs.map Segment.text)) := by
  cases segs with
  | nil => rfl
  | cons s ss =>
    have hne : (s :: ss).map Segment.text ≠ [] := by simp
    have h := foldl_texts_trailing ((s :: ss).map Segment.text) hne ""
    rw [List.foldl_map] at h
    unfold accText
    rw [h]
    exact pyStrip_append_space _

/-! ### format_time agrees with the specified truncated HH:MM:SS rendering -/

theorem pyIntTrunc_intCast (z : ℤ) : pyIntTrunc (z : ℚ) = z := by
  unfold pyIntTrunc
  split
  · exact Int.floor_intCast z
  · exact Int.ceil_intCast z

theorem floor_nonneg_natFloor {q : ℚ} (hq : 0 ≤ q) : ⌊q⌋ = (⌊q⌋₊ : ℤ) := by
  rw [← Int.floor_toNat]
  exact (Int.toNat_of_nonneg (Int.floor_nonneg.mpr hq)).symm

theorem floorDiv_nat (q : ℚ) (m : ℕ) (hq : 0 ≤ q) :
    ⌊q / (m : ℚ)⌋ = ((⌊q⌋₊ / m : ℕ) : ℤ) := by
  have h0 : 0 ≤ q / (m : ℚ) := div_nonneg hq (by positivity)
  rw [floor_nonneg_natFloor h0, Nat.floor_div_nat]

theorem pyModQ_nat_nonneg (q : ℚ) (m : ℕ) (_hq : 0 ≤ q) (hm : 0 < m) :
    0 ≤ pyModQ q (m : ℚ) := by
  unfold pyModQ
  have hmq : (0 : ℚ) < (m : ℚ) := by exact_mod_cast hm
  have hle : ((m : ℚ)) * ((⌊q / (m : ℚ)⌋ : ℤ) : ℚ) ≤ (m : ℚ) * (q / (m : ℚ)) :=
    mul_le_mul_of_nonneg_left (Int.floor_le _) (le_of_lt hmq)
  have hcancel : (m : ℚ) * (q / (m : ℚ)) = q := by
    field_simp
  linarith

theorem pyModQ_nat_floor (q : ℚ) (m : ℕ) (hq : 0 ≤ q) :
    ⌊pyModQ q (m : ℚ)⌋ = ((⌊q⌋₊ % m : ℕ) : ℤ) := by
  unfold pyModQ
  rw [floorDiv_nat q m hq]
  have hrw : (m : ℚ) * (((⌊q⌋₊ / m : ℕ) : ℤ) : ℚ) = (((m * (⌊q⌋₊ / m) : ℕ) : ℤ) : ℚ) := by
    push_cast
    ring
  rw [hrw, Int.floor_sub_int, floor_nonneg_natFloor hq]
  have hmd := Nat.mod_add_div ⌊q⌋₊ m
  omega

theorem ft_hrs (q : ℚ) (hq : 0 ≤ q) :
    pyIntTrunc (pyFloorDiv q 3600) = ((⌊q⌋₊ / 3600 : ℕ) : ℤ) := by
  unfold pyFloorDiv
  rw [pyIntTrunc_intCast]
  rw [show (3600 : ℚ) = ((3600 : ℕ) : ℚ) by norm_num]
  exact floorDiv_nat q 3600 hq

theorem ft_mins (q : ℚ) (hq : 0 ≤ q) :
    pyIntTrunc (pyFloorDiv (pyModQ q 3600) 60) = ((⌊q⌋₊ % 3600 / 60 : ℕ) : ℤ) := by
  unfold pyFloorDiv
  rw [pyIntTrunc_intCast]
  have h3600 : (3600 : ℚ) = ((3600 : ℕ) : ℚ) := by norm_num
  have h60 : (60 : ℚ) = ((60 : ℕ) : ℚ) := by norm_num
  rw [h3600, h60]
  have hr : 0 ≤ pyModQ q ((3600 : ℕ) : ℚ) := pyModQ_nat_nonneg q 3600 hq (by norm_num)
  rw [floorDiv_nat _ 60 hr]
  have hfl : ⌊pyModQ q ((3600 : ℕ) : ℚ)⌋ = ((⌊q⌋₊ % 3600 : ℕ) : ℤ) := pyModQ_nat_floor q 3600 hq
  have hnat : ⌊pyModQ q ((3600 : ℕ) : ℚ)⌋₊ = ⌊q⌋₊ % 3600 := by
    have := floor_nonneg_natFloor hr
    omega
  rw [hnat]

theorem ft_secs (q : ℚ) (hq : 0 ≤ q) :
    pyIntTrunc (pyModQ q 60) = ((⌊q⌋₊ % 60 : ℕ) : ℤ) := by
  have h60 : (60 : ℚ) = ((60 : ℕ) : ℚ) := by norm_num
  have hr : 0 ≤ pyModQ q ((60 : ℕ) : ℚ) := pyModQ_nat_nonneg q 60 hq (by norm_num)
  unfold pyIntTrunc
  rw [h60, if_pos hr]
  exact pyModQ_nat_floor q 60 hq

/-- On non-negative times the source formatter coincides with the truncated
zero-padded HH:MM:SS rendering the specification describes. -/
theorem format_time_spec (q : ℚ) (hq : 0 ≤ q) : format_time q = specHMS q := by
  simp only [format_time, specHMS]
  rw [ft_hrs q hq, ft_mins q hq, ft_secs q hq]

/-! ### Characterization of caption-track selection for non-empty track ids -/

theorem id_data_ne {t : CaptionTrack} (h : t.id ≠ "") : t.id.data ≠ [] := by
  intro hd
  exact h (string_eq_iff_data.mpr (by simp [hd]))

theorem selTruthy_of_ne {t : CaptionTrack} (h : t.id ≠ "") :
    selTruthy (some t) = true := by
  unfold selTruthy
  simpa [List.isEmpty_iff] using id_data_ne h

/-- With every track id non-empty (Python-truthy), selection follows the
three-phase preference order exactly and fails only on an empty listing. -/
theorem select_characterization (items : List CaptionTrack)
    (h : ∀ t ∈ items, t.id ≠ "") :
    get_transcript_select items =
      match items.find? (fun t => t.language == "en" && !isAutoTrack t) with
      | some t => .ok t
      | none =>
        match items.find? (fun t => t.language == "en") with
        | some t => .ok t
        | none =>
          match items with
          | [] => .error "No captions found for this video"
          | t0 :: _ => .ok t0 := by
  cases items with
  | nil => rfl
  | cons t0 rest =>
    simp only [get_transcript_select]
    cases h1 : (t0 :: rest).find? (fun t => t.language == "en" && !isAutoTrack t) with
    | some t =>
      have hm := List.mem_of_find?_eq_some h1
      simp [selTruthy_of_ne (h t hm)]
    | none =>
      cases h2 : (t0 :: rest).find? (fun t => t.language == "en") with
      | some t =>
        have hm := List.mem_of_find?_eq_some h2
        simp [selTruthy, id_data_ne (h t hm), List.isEmpty_iff]
      | none =>
        simp [selTruthy, List.isEmpty_iff]
        exact id_data_ne (h t0 (List.mem_cons_self t0 rest))

/-! ### Inputs without timestamp lines -/

/-- Lines without "-->" never flush a segment, never set a timestamp, never fail. -/
theorem foldlM_no_ts (lines : List String) :
    ∀ st : SRTState, (∀ l ∈ lines, isTsLine l = false) →
      ∃ st', List.foldlM srtStep st lines = .ok st' ∧
        st'.segments = st.segments ∧ st'.currentTimestamp = st.currentTimestamp := by
  induction lines with
  | nil =>
    intro st _
    exact ⟨st, rfl, rfl, rfl⟩
  | cons l ls ih =>
    intro st h
    have hl : isTsLine l = false := h l (List.mem_cons_self l ls)
    have hls : ∀ x ∈ ls, isTsLine x = false := fun x hx => h x (List.mem_cons_of_mem l hx)
    rw [List.foldlM_cons]
    by_cases hskip : ((pyStrip l).data.isEmpty || pyIsdigit (pyStrip l)) = true
    · have : srtStep st l = .ok st := by
        rcases Bool.or_eq_true_iff.mp hskip with h' | h'
        · exact srtStep_skip st l (Or.inl h')
        · exact srtStep_skip st l (Or.inr h')
      rw [this, except_bind_ok]
      exact ih st hls
    · have hgood : goodTextLine l = true := by
        unfold goodTextLine
        simp only [Bool.or_eq_true, not_or] at hskip
        unfold isTsLine at hl
        simp [Bool.not_eq_true] at hskip
        simp [hskip.1, hskip.2, hl]
      rw [srtStep_text st l hgood, except_bind_ok]
      obtain ⟨st', h1, h2, h3⟩ := ih _ hls
      exact ⟨st', h1, h2, h3⟩

/-- A payload with no timestamp line parses to no segments and no error. -/
theorem parse_no_ts (lines : List String) (h : ∀ l ∈ lines, isTsLine l = false) :
    ∃ st', parseLinesSRT lines = .ok st' ∧ st'.segments = [] := by
  obtain ⟨st', h1, h2, h3⟩ := foldlM_no_ts lines srtInit h
  unfold parseLinesSRT
  rw [h1, except_bind_fn_ok, srtFinish_skip st' (Or.inr (by rw [h3]; rfl))]
  exact ⟨st', rfl, by rw [h2]; rfl⟩

/-- All lines of a valid payload are newline-free. -/
theorem payloadLines_no_newline (bs : List SRTBlock) (h : ∀ b ∈ bs, ValidBlock b) :
    ∀ l ∈ payloadLines bs, '\n' ∉ l.data := by
  have htail : ∀ (cs : List SRTBlock), (∀ b ∈ cs, ValidBlock b) →
      ∀ l ∈ tailLines cs, '\n' ∉ l.data := by
    intro cs
    induction cs with
    | nil => intro _ l hl; simp [tailLines] at hl
    | cons b rest ih =>
      intro hall l hl
      have hb : ValidBlock b := hall b (List.mem_cons_self b rest)
      have hrest : ∀ x ∈ rest, ValidBlock x := fun x hx => hall x (List.mem_cons_of_mem b hx)
      rw [show tailLines (b :: rest) = ("" :: blockLines b) ++ tailLines rest by simp [tailLines]] at hl
      rcases List.mem_append.mp hl with hl | hl
      · rcases List.mem_cons.mp hl with hl | hl
        · subst hl; simp
        · exact hb.2.2.2.2.2 l hl
      · exact ih hrest l hl
  cases bs with
  | nil => intro l hl; simp [payloadLines] at hl
  | cons a rest =>
    intro l hl
    have ha : ValidBlock a := h a (List.mem_cons_self a rest)
    have hrest : ∀ x ∈ rest, ValidBlock x := fun x hx => h x (List.mem_cons_of_mem a hx)
    rw [show payloadLines (a :: rest) = blockLines a ++ tailLines rest from rfl] at hl
    rcases List.mem_append.mp hl with hl | hl
    · exact ha.2.2.2.2.2 l hl
    · exact htail rest hrest l hl

/-- The lines of a non-empty valid payload form a non-empty list. -/
theorem payloadLines_ne_nil (a : SRTBlock) (rest : List SRTBlock) :
    payloadLines (a :: rest) ≠ [] := by
  unfold payloadLines blockLines
  intro hcontra
  have := congrArg List.length hcontra
  simp at this

/-! ## Claims -/

/-- C1 (code bug): the specification states that every InsertOp offset equals
1 plus the sum of the character lengths of all previously emitted blocks'
content.  The source contradicts this from the second insert on: after
inserting the header at index 1 it sets current_index to len(header) instead
of 1 + len(header) (src/api/google_docs.py 84), and with an analysis present
it advances by len(analysis_text) + 6 although the appended separator has 7
characters (line 126, contradicting the adjacent source comment).  At title
"T", channel "C", url "U", duration 0, transcript body "B", the emitted insert
offsets are [1, 25, 68, 88] without analysis and [1, 25, 68, 81, 88, 108] with
analysis "A", while the offsets prescribed by the claim are [1, 26, 69, 89]
and [1, 26, 69, 82, 90, 110] respectively. -/
theorem c1_assembler_offsets_bug :
    insertOffsets (create_doc_with_transcript_requests "T" "C" "U" 0 none "B") = [1, 25, 68, 88] ∧
    specOffsets (insertTexts (create_doc_with_transcript_requests "T" "C" "U" 0 none "B")) =
      [1, 26, 69, 89] ∧
    insertOffsets (create_doc_with_transcript_requests "T" "C" "U" 0 (some "A") "B") =
      [1, 25, 68, 81, 88, 108] ∧
    specOffsets (insertTexts (create_doc_with_transcript_requests "T" "C" "U" 0 (some "A") "B")) =
      [1, 26, 69, 82, 90, 110] := by decide

/-- C2 counterexample: the claim states that an input whose timestamp start
exceeds its end fails with a ParseError.  Instead, the payload with timestamp
line 00:00:05,000 --> 00:00:01,000 parses without error into the segment
(start 5, end 1, "hi") with start > end. -/
theorem c2_start_le_end_counterexample :
    parseLinesSRT ["1", "00:00:05,000 --> 00:00:01,000", "hi"] =
      .ok ⟨"00:00:05,000 --> 00:00:01,000", ["hi"], [⟨5, 1, "hi"⟩], "hi"⟩ ∧
    ¬ ((5 : ℚ) ≤ 1) := by decide

/-- C2 amended: the timestamp parser imposes no ordering constraint: for all
single-digit second values a and b, the line 00:00:0a,000 --> 00:00:0b,000
parses successfully to exactly (a, b), also when a > b. -/
theorem c2_no_ordering_check (a b : Fin 10) :
    parse_srt_timestamp ("00:00:0" ++ toString a.val ++ ",000 --> 00:00:0" ++
        toString b.val ++ ",000") = .ok ((a.val : ℚ), (b.val : ℚ)) := by
  revert a b; decide

/-- C2 witness: instance of the amended claim at a = 5, b = 2 (start > end). -/
theorem c2_no_ordering_witness :
    parse_srt_timestamp ("00:00:0" ++ toString (5 : Fin 10).val ++ ",000 --> 00:00:0" ++
        toString (2 : Fin 10).val ++ ",000") =
      .ok (((5 : Fin 10).val : ℚ), ((2 : Fin 10).val : ℚ)) :=
  c2_no_ordering_check 5 2

/-- C3 counterexample: the claim states selection returns the first manual
English track and errors exactly on an empty sequence.  A single manual
English track whose id is the empty string is Python-falsy, so every phase's
assignment reads as no selection and the non-empty input errors instead. -/
theorem c3_selector_counterexample :
    get_transcript_select [⟨"", "en", "", ""⟩] = .error "No suitable captions found" ∧
    isAutoTrack ⟨"", "en", "", ""⟩ = false ∧
    ([(⟨"", "en", "", ""⟩ : CaptionTrack)] : List CaptionTrack) ≠ [] := by decide

/-- C3 amended: provided every listed track id is a non-empty string, selection
follows the deterministic first-match preference order: the first English
non-auto-generated track, else the first English track, else the first track,
and the no-captions error exactly on an empty sequence. -/
theorem c3_selector_preference_order (items : List CaptionTrack)
    (h : ∀ t ∈ items, t.id ≠ "") :
    get_transcript_select items =
      match items.find? (fun t => t.language == "en" && !isAutoTrack t) with
      | some t => .ok t
      | none =>
        match items.find? (fun t => t.language == "en") with
        | some t => .ok t
        | none =>
          match items with
          | [] => .error "No captions found for this video"
          | t0 :: _ => .ok t0 :=
  select_characterization items h

/-- C3 witness: on [en auto, en manual, fr manual] with non-empty ids the
selector returns the manual English track. -/
theorem c3_selector_witness :
    get_transcript_select
        [⟨"a", "en", "auto-generated", "ASR"⟩, ⟨"b", "en", "English manual", ""⟩,
          ⟨"c", "fr", "French", ""⟩] =
      .ok ⟨"b", "en", "English manual", ""⟩ := by
  have h := c3_selector_preference_order
    [⟨"a", "en", "auto-generated", "ASR"⟩, ⟨"b", "en", "English manual", ""⟩,
      ⟨"c", "fr", "French", ""⟩] (by decide)
  rw [h]
  decide

/-- C4 counterexample: the claim counts one segment per timestamp line for every
payload of blocks with an optional numeric index line, a timestamp line and one
or more text lines.  In the payload below the first block's only text line is
the purely numeric "42", which the parser skips, so its segment is silently
dropped: two timestamp lines but a single parsed segment. -/
theorem c4_segment_count_counterexample :
    (pySplitStr "\n"
        "1\n00:00:00,000 --> 00:00:01,000\n42\n\n2\n00:00:01,000 --> 00:00:02,000\nhi").countP
      isTsLine = 2 ∧
    Except.map (fun tr => tr.segments)
        (get_transcript_srt
          "1\n00:00:00,000 --> 00:00:01,000\n42\n\n2\n00:00:01,000 --> 00:00:02,000\nhi") =
      .ok [⟨1, 2, "hi"⟩] := by decide

/-- C4 amended: for every payload of valid blocks — where each block has an
optional purely numeric index line, a parsing timestamp line, and at least one
text line that is kept by the parser (non-blank, not purely numeric and not a
timestamp line after stripping) — parsing succeeds, the segments are exactly
one per block in source order, and the number of timestamp lines equals the
number of blocks; furthermore any input with no timestamp lines parses to zero
segments without error. -/
theorem c4_segment_count_order :
    (∀ bs : List SRTBlock, (∀ b ∈ bs, ValidBlock b) →
      ∃ tr, get_transcript_srt (pyJoin "\n" (payloadLines bs)) = .ok tr ∧
        tr.segments = bs.map blockSeg ∧
        (payloadLines bs).countP isTsLine = bs.length) ∧
    (∀ raw : String, (∀ l ∈ pySplitStr "\n" raw, isTsLine l = false) →
      ∃ tr, get_transcript_srt raw = .ok tr ∧ tr.segments = []) := by
  constructor
  · intro bs h
    cases bs with
    | nil => exact ⟨⟨"", "", []⟩, by decide, rfl, rfl⟩
    | cons a rest =>
      have hbridge : pySplitStr "\n" (pyJoin "\n" (payloadLines (a :: rest))) =
          payloadLines (a :: rest) :=
        pySplitStr_pyJoin_newline _ (payloadLines_ne_nil a rest) (payloadLines_no_newline _ h)
      obtain ⟨st, hst, hsegs⟩ := parse_payloadLines (a :: rest) h
      refine ⟨⟨pyStrip st.fullText, pyJoin "\n\n" (st.segments.map formatSegment), st.segments⟩,
        ?_, hsegs, countP_payloadLines _ h⟩
      unfold get_transcript_srt
      rw [hbridge, hst]
      rfl
  · intro raw hr
    obtain ⟨st, hst, hsegs⟩ := parse_no_ts (pySplitStr "\n" raw) hr
    refine ⟨⟨pyStrip st.fullText, pyJoin "\n\n" (st.segments.map formatSegment), st.segments⟩,
      ?_, hsegs⟩
    unfold get_transcript_srt
    rw [hst]
    rfl

/-- C4 witness: the two-block payload of the specification's end-to-end example
parses to its two segments in order, matching its two timestamp lines. -/
theorem c4_segment_count_witness :
    ∃ tr, get_transcript_srt (pyJoin "\n" (payloadLines
        [⟨some "1", "00:00:00,000 --> 00:00:02,500", ["Hello world"]⟩,
          ⟨some "2", "00:00:02,500 --> 00:00:05,000", ["Goodbye"]⟩])) = .ok tr ∧
      tr.segments =
        [⟨some "1", "00:00:00,000 --> 00:00:02,500", ["Hello world"]⟩,
          ⟨some "2", "00:00:02,500 --> 00:00:05,000", ["Goodbye"]⟩].map blockSeg ∧
      (payloadLines
        [⟨some "1", "00:00:00,000 --> 00:00:02,500", ["Hello world"]⟩,
          ⟨some "2", "00:00:02,500 --> 00:00:05,000", ["Goodbye"]⟩]).countP isTsLine = 2 :=
  c4_segment_count_order.1
    [⟨some "1", "00:00:00,000 --> 00:00:02,500", ["Hello world"]⟩,
      ⟨some "2", "00:00:02,500 --> 00:00:05,000", ["Goodbye"]⟩] (by decide)

/-- C5: for every sequence of segments with non-negative start and end times,
the formatted text renders each segment as [HH:MM:SS - HH:MM:SS] text with
both times zero-padded and integer-truncated toward zero, and joins the
rendered blocks with a blank line (the rendering used by get_transcript for
the transcript's 'formatted' field). -/
theorem c5_formatted_rendering (segs : List Segment)
    (h : ∀ seg ∈ segs, 0 ≤ seg.start ∧ 0 ≤ seg.endTime) :
    pyJoin "\n\n" (segs.map formatSegment) = specFormatted segs := by
  unfold specFormatted
  congr 1
  apply List.map_congr_left
  intro seg hs
  unfold formatSegment
  rw [format_time_spec seg.start (h seg hs).1, format_time_spec seg.endTime (h seg hs).2]

/-- C5 witness: 59.9 seconds truncates to 00:00:59 (no rounding). -/
theorem c5_formatted_witness :
    pyJoin "\n\n" (List.map formatSegment [⟨(599 : ℚ)/10, 60, "x"⟩]) =
      specFormatted [⟨(599 : ℚ)/10, 60, "x"⟩] ∧
    specFormatted [⟨(599 : ℚ)/10, 60, "x"⟩] = "[00:00:59 - 00:01:00] x" :=
  ⟨c5_formatted_rendering _ (by decide), by decide⟩

/-- C6 counterexample: the claim states the locator returns the start offset of
the first Heading2 block containing "Full Transcript".  A matching block with
start offset 0 is Python-falsy, so the locator falls back to 1 instead of
returning 0. -/
theorem c6_locator_counterexample :
    update_doc_insert_index [⟨true, "HEADING_2", "## Full Transcript", some 0⟩] = 1 ∧
    isTranscriptHeading ⟨true, "HEADING_2", "## Full Transcript", some 0⟩ = true ∧
    (0 : Nat) ≠ 1 := by decide

/-- C6 amended: when every block carries a positive start offset, the locator
returns the start offset of the first Heading2 block whose text contains
"Full Transcript", and returns the fallback offset 1 when no block matches
(no error is signalled). -/
theorem c6_locator_behavior (content : List DocItem)
    (h : ∀ item ∈ content, ∃ n, item.startIndex = some n ∧ 0 < n) :
    update_doc_insert_index content =
      match content.find? isTranscriptHeading with
      | some item => item.startIndex.getD 1
      | none => 1 := by
  unfold update_doc_insert_index
  cases hf : content.find? isTranscriptHeading with
  | none => rfl
  | some item =>
    obtain ⟨n, hn, hpos⟩ := h item (List.mem_of_find?_eq_some hf)
    have hne : (n == 0) = false := by
      simp only [beq_eq_false_iff_ne, ne_eq]
      omega
    simp [hn, hne]

/-- C6 witness: the locator returns the matching heading's offset 42 and skips
the earlier non-matching block. -/
theorem c6_locator_witness :
    update_doc_insert_index
        [⟨false, "", "intro", some 7⟩, ⟨true, "HEADING_2", "## Full Transcript", some 42⟩] =
      42 := by
  have h := c6_locator_behavior
    [⟨false, "", "intro", some 7⟩, ⟨true, "HEADING_2", "## Full Transcript", some 42⟩]
    (by decide)
  rw [h]
  decide

/-- C7: the time parser recovers the rendered whole-second timestamps:
each side of [00:01:05 - 00:01:10] parses back to 65 and 70 seconds, and the
formatter renders 65 and 70 to those sides. -/
theorem c7_timestamp_round_trip :
    parse_time "00:01:05" = .ok 65 ∧ parse_time "00:01:10" = .ok 70 ∧
    format_time 65 = "00:01:05" ∧ format_time 70 = "00:01:10" ∧
    formatSegment ⟨65, 70, "t"⟩ = "[00:01:05 - 00:01:10] t" := by decide

/-- C8: for every input whose transcript pipeline succeeds, the transcript's
full text equals the segments' text fields joined in order by single spaces,
trimmed at both ends. -/
theorem c8_fulltext_join (raw : String) (tr : Transcript)
    (h : get_transcript_srt raw = .ok tr) :
    tr.full = pyStrip (pyJoin " " (tr.segments.map Segment.text)) := by
  unfold get_transcript_srt at h
  cases hp : parseLinesSRT (pySplitStr "\n" raw) with
  | error msg => rw [hp] at h; exact absurd h (by simp [Except.map])
  | ok st =>
    rw [hp] at h
    simp only [Except.map] at h
    injection h with h
    subst h
    show pyStrip st.fullText = pyStrip (pyJoin " " (st.segments.map Segment.text))
    unfold parseLinesSRT at hp
    cases hf : List.foldlM srtStep srtInit (pySplitStr "\n" raw) with
    | error msg => rw [hf] at hp; exact absurd hp (by simp [except_bind_fn_error])
    | ok mid =>
      rw [hf, except_bind_fn_ok] at hp
      have hInv : mid.fullText = accText mid.segments :=
        foldlM_srtStep_inv (fun s => s.fullText = accText s.segments)
          srtStep_preserves_acc _ _ _ hf rfl
      unfold srtFinish at hp
      split at hp
      · split at hp
        · cases hp
        · cases hp
          rw [hInv, List.map_append]
          show pyStrip (accText mid.segments ++ pyJoin " " mid.currentText) =
            pyStrip (pyJoin " " (mid.segments.map Segment.text ++ [pyJoin " " mid.currentText]))
          rw [accText_concat]
      · cases hp
        rw [hInv]
        exact accText_strip _

/-- C8 witness: on a one-block payload the full text "hello world" equals the
stripped space-join of the segment texts. -/
theorem c8_fulltext_witness :
    ("hello world" : String) =
      pyStrip (pyJoin " " (List.map Segment.text [⟨0, 1, "hello world"⟩])) := by
  have h := c8_fulltext_join "1\n00:00:00,000 --> 00:00:01,000\nhello world"
    ⟨"hello world", "[00:00:00 - 00:00:01] hello world", [⟨0, 1, "hello world"⟩]⟩
    (by decide)
  simpa using h

/-- C9: the parser skips every line that strips to a purely numeric string,
wherever it occurs: such a line leaves the parser state untouched, so deleting
it anywhere in the payload leaves the whole parse unchanged (hence a numeric
caption line is silently omitted from its segment's text and from the full
text, and a block whose only text lines are numeric contributes no segment). -/
theorem c9_numeric_lines_skipped :
    (∀ (st : SRTState) (line : String), pyIsdigit (pyStrip line) = true →
      srtStep st line = .ok st) ∧
    (∀ (pre post : List String) (line : String), pyIsdigit (pyStrip line) = true →
      parseLinesSRT (pre ++ line :: post) = parseLinesSRT (pre ++ post)) := by
  constructor
  · intro st line h
    exact srtStep_skip st line (Or.inr h)
  · intro pre post line h
    unfold parseLinesSRT
    rw [List.foldlM_append, List.foldlM_append]
    cases hf : List.foldlM srtStep srtInit pre with
    | error msg => rfl
    | ok mid =>
      rw [except_bind_ok, except_bind_ok, List.foldlM_cons,
        srtStep_skip mid line (Or.inr h), except_bind_ok]

/-- C9 witness: the numeric line "42" is skipped in place and its deletion does
not change the parse. -/
theorem c9_numeric_lines_witness :
    srtStep srtInit "42" = .ok srtInit ∧
    parseLinesSRT ["00:00:00,000 --> 00:00:01,000", "42", "hi"] =
      parseLinesSRT ["00:00:00,000 --> 00:00:01,000", "hi"] := by
  constructor
  · exact c9_numeric_lines_skipped.1 srtInit "42" (by decide)
  · have h := c9_numeric_lines_skipped.2 ["00:00:00,000 --> 00:00:01,000"] ["hi"] "42"
      (by decide)
    simpa using h

/-- C10 counterexample: the claim states the "No suitable captions found" branch
is unreachable for non-empty listings.  A single track with an empty id reaches
it: the first-track fallback assigns a Python-falsy id, so the post-selection
check fails on a non-empty sequence. -/
theorem c10_unreachable_counterexample :
    get_transcript_select [⟨"", "fr", "", ""⟩] = .error "No suitable captions found" ∧
    ([(⟨"", "fr", "", ""⟩ : CaptionTrack)] : List CaptionTrack) ≠ [] := by decide

/-- C10 amended: provided every listed track id is non-empty, the
"No suitable captions found" branch after selection is unreachable, and
selection succeeds on every non-empty sequence (the first-track fallback fires
unconditionally). -/
theorem c10_error_branch (items : List CaptionTrack) (h : ∀ t ∈ items, t.id ≠ "") :
    get_transcript_select items ≠ .error "No suitable captions found" ∧
    (items ≠ [] → ∃ t ∈ items, get_transcript_select items = .ok t) := by
  have hc := select_characterization items h
  constructor
  · rw [hc]
    cases h1 : items.find? (fun t => t.language == "en" && !isAutoTrack t) with
    | some t => simp
    | none =>
      cases h2 : items.find? (fun t => t.language == "en") with
      | some t => simp
      | none =>
        cases items with
        | nil =>
          intro hcontra
          injection hcontra with hmsg
          exact absurd hmsg (by decide)
        | cons t0 rest => simp
  · intro hne
    rw [hc]
    cases h1 : items.find? (fun t => t.language == "en" && !isAutoTrack t) with
    | some t => exact ⟨t, List.mem_of_find?_eq_some h1, rfl⟩
    | none =>
      cases h2 : items.find? (fun t => t.language == "en") with
      | some t => exact ⟨t, List.mem_of_find?_eq_some h2, rfl⟩
      | none =>
        cases items with
        | nil => exact absurd rfl hne
        | cons t0 rest => exact ⟨t0, List.mem_cons_self t0 rest, rfl⟩

/-- C10 witness: a single non-English track with a non-empty id is selected via
the first-track fallback, avoiding the error branch. -/
theorem c10_error_branch_witness :
    ∃ t ∈ [(⟨"x", "fr", "", ""⟩ : CaptionTrack)],
      get_transcript_select [(⟨"x", "fr", "", ""⟩ : CaptionTrack)] = .ok t :=
  (c10_error_branch [⟨"x", "fr", "", ""⟩] (by decide)).2 (by decide)

end CouncilMeeting
